import Mathlib

/-!
Shallow embedding of the LINE-OA chatbot core (src/app/intent.py,
src/app/template_engine.py, src/app/main.py) together with proofs about the
intent matcher, the template engine and the product/promotion selection
policies.

Python strings are modelled as Lean `String`; Python `dict` rows (pandas
rows converted by `to_dict`) are modelled as association lists with
first-match lookup, which is the observable behaviour of `Series.get` /
`dict.__getitem__`.  Python `str.strip` / `str.lower` / `\s` are modelled
with `Char.isWhitespace` / `Char.toLower` (ASCII case folding; the Thai
text appearing in the sheets has no case).  A raised `ValueError` is
modelled as `Except.error`.
-/

namespace TwstBot

/-! ## Python string primitives -/

/-- Characters counted as whitespace by the model of Python `str.strip`
and of the regex class `\s`. -/
def pyWS (c : Char) : Bool := c.isWhitespace

/-- Drop leading then trailing whitespace from a character list; models
Python `str.strip()`. -/
def stripChars (l : List Char) : List Char :=
  ((l.dropWhile pyWS).reverse.dropWhile pyWS).reverse

/-- Python `str.strip()` on strings. -/
def pyStrip (s : String) : String := ⟨stripChars s.data⟩

/-- Python `str.lower()` (ASCII case folding; Thai has no case). -/
def pyLower (s : String) : String := ⟨s.data.map Char.toLower⟩

/-- Executable prefix test on character lists. -/
def isPrefixCh (pat l : List Char) : Bool :=
  match pat, l with
  | [], _ => true
  | x :: xs, y :: ys => x = y && isPrefixCh xs ys
  | _ :: _, [] => false

/-- Executable substring (contiguous infix) test on character lists. -/
def isSubCh (n : List Char) : List Char → Bool
  | [] => n.isEmpty
  | c :: t => isPrefixCh n (c :: t) || isSubCh n t

/-- Python `needle in hay` substring test. -/
def pySubstr (needle hay : String) : Bool := isSubCh needle.data hay.data

/-- Python `s.startswith(p)`. -/
def pyStartswith (p s : String) : Bool := isPrefixCh p.data s.data

/-- Split a character list at every occurrence of `sep`, keeping empty
pieces; models Python `str.split(sep)` for a one-character separator. -/
def splitChAux (sep : Char) : List Char → List Char → List (List Char)
  | [], acc => [acc.reverse]
  | c :: cs, acc =>
    if c = sep then acc.reverse :: splitChAux sep cs []
    else splitChAux sep cs (c :: acc)

/-- Split on a one-character separator, Python `str.split(sep)`. -/
def splitCh (sep : Char) (l : List Char) : List (List Char) := splitChAux sep l []

/-- Everything after the first occurrence of `c`; models
`s.split(c, 1)[1]` when an occurrence exists (the callers guard this). -/
def afterFirst (c : Char) : List Char → List Char
  | [] => []
  | x :: xs => if x = c then xs else afterFirst c xs

/-- Python whitespace-splitting `str.split()` (no empty pieces). -/
def pyWordsAux : List Char → List Char → List (List Char)
  | [], acc => if acc.isEmpty then [] else [acc.reverse]
  | c :: cs, acc =>
    if pyWS c then
      if acc.isEmpty then pyWordsAux cs [] else acc.reverse :: pyWordsAux cs []
    else pyWordsAux cs (c :: acc)

/-- Python `str.split()` with no argument: whitespace-delimited words. -/
def pyWords (s : String) : List String := (pyWordsAux s.data []).map (fun w => ⟨w⟩)

/-- Value of a run of decimal digits. -/
def digitsVal (l : List Char) : Nat :=
  l.foldl (fun acc c => acc * 10 + (c.toNat - '0'.toNat)) 0

/-- Python `int(s)` on a string: strip whitespace, optional sign, one or
more ASCII digits, whole string consumed; `none` models a `ValueError`. -/
def pyInt (s : String) : Option Int :=
  let t := stripChars s.data
  match t with
  | '-' :: ds => if ds ≠ [] ∧ ds.all Char.isDigit then some (-(digitsVal ds : Int)) else none
  | '+' :: ds => if ds ≠ [] ∧ ds.all Char.isDigit then some ((digitsVal ds : Int)) else none
  | ds => if ds ≠ [] ∧ ds.all Char.isDigit then some ((digitsVal ds : Int)) else none

/-! ## src/app/intent.py -/

/-- A pandas row after `to_dict`, as seen by the intent matcher: the cells
it reads are strings.  Lookup is first-match, like `Series.get`. -/
abbrev Row := List (String × String)

/-- Read a cell, with a default for a missing column; models
`str(r.get(key, default))`. -/
def getCell (r : Row) (key default : String) : String :=
  match r.lookup key with
  | some v => v
  | none => default

/-- Result of `parse_detection_rule`. -/
inductive DetectionRule where
  | keyword_any (tokens : List String)
  | always
  | unknown
deriving DecidableEq

/-- Core of `parse_detection_rule` applied to the portion before the first
pipe of the stripped rule text. -/
def parseCore (core : String) : DetectionRule :=
  if pyStartswith "keyword_any:" core then
    .keyword_any
      (((splitCh ',' (afterFirst ':' core.data)).map (fun t => (⟨t⟩ : String))).filter
          (fun t => pyStrip t ≠ "") |>.map (fun t => pyLower (pyStrip t)))
  else if pyStartswith "always" core then .always
  else .unknown

/-- Model of `parse_detection_rule` (src/app/intent.py): strip, keep the
portion before the first `|`, then dispatch on the `keyword_any:` /
`always` prefixes. -/
def parse_detection_rule (rule : String) : DetectionRule :=
  let rule := pyStrip rule
  let core : String := ⟨(splitCh '|' rule.data).headD []⟩
  parseCore core

/-- Model of `_norm` (src/app/intent.py): strip then lower. -/
def pyNorm (s : String) : String := pyLower (pyStrip s)

/-- Model of `match_keyword_any` (src/app/intent.py): some token is a
substring of the normalised text.  Tokens are used as given. -/
def match_keyword_any (text : String) (tokens : List String) : Bool :=
  let t := pyNorm text
  tokens.any (fun tok => pySubstr tok t)

/-- Priority of a rule row: `int(str(r.get(col, "999")) or 999)`.  An
empty cell (falsy string) defaults to 999; a non-empty cell that `int`
cannot parse raises, modelled as `Except.error`. -/
def rowPrio (r : Row) : Except Unit Int :=
  let s := getCell r "ลำดับความสำคัญ" "999"
  if s = "" then .ok 999
  else match pyInt s with
    | some n => .ok n
    | none => .error ()

/-- Whether a rule row matches the incoming text (the `ok` flag of the
candidate loop in `choose_intent`). -/
def rowMatches (text : String) (r : Row) : Bool :=
  match parse_detection_rule (getCell r "กฎการตรวจจับ" "") with
  | .keyword_any toks => match_keyword_any text toks
  | .always => true
  | .unknown => false

/-- The two rule tables flattened in iteration order, each row tagged with
its sheet name, exactly as the loops of `choose_intent` visit them
(skipping an empty table is a no-op for this flattening). -/
def taggedRows (df_before df_after : List Row) : List (String × Row) :=
  df_before.map (fun r => ("before", r)) ++ df_after.map (fun r => ("after", r))

/-- Candidate collection loop of `choose_intent`: for every row compute
the priority (possibly raising) and keep matching rows, in order. -/
def collectRows (text : String) : List (String × Row) → Except Unit (List (Int × String × Row))
  | [] => .ok []
  | (w, r) :: rest =>
    match rowPrio r with
    | .error e => .error e
    | .ok p =>
      match collectRows text rest with
      | .error e => .error e
      | .ok cs => .ok (if rowMatches text r then (p, w, r) :: cs else cs)

/-- First element with the minimum priority, scanning left to right;
models `candidates.sort(key=lambda x: x[0])` (a stable sort) followed by
`candidates[0]`. -/
def firstMinBy (start : Int × String × Row) : List (Int × String × Row) → Int × String × Row
  | [] => start
  | c :: cs => firstMinBy (if c.1 < start.1 then c else start) cs

/-- Fallback scan of `choose_intent`: first row whose raw rule text starts
with `always` (no stripping here), else the reserved marker. -/
def fallbackScan : List (String × Row) → String × Row
  | [] => ("fallback", ([] : Row))
  | (w, r) :: rest =>
    if pyStartswith "always" (getCell r "กฎการตรวจจับ" "") then (w, r)
    else fallbackScan rest

/-- Model of `choose_intent` (src/app/intent.py). -/
def choose_intent (text : String) (df_before df_after : List Row) :
    Except Unit (String × Row) :=
  match collectRows text (taggedRows df_before df_after) with
  | .error e => .error e
  | .ok [] => .ok (fallbackScan (taggedRows df_before df_after))
  | .ok (c :: cs) => .ok (firstMinBy c cs).2

/-! ## src/app/template_engine.py -/

/-- Values stored in a rendering context: the code feeds `render` strings,
nested dicts (product attributes parsed from JSON) and `None`. -/
inductive Value where
  | str (s : String)
  | dict (entries : List (String × Value))
  | null

mutual

/-- Python `repr` of a context value (quote escaping not modelled; the
claims never exercise it). -/
def valueRepr : Value → String
  | .str s => "'" ++ s ++ "'"
  | .null => "None"
  | .dict es => "\x7b" ++ entriesRepr es ++ "\x7d"

/-- Python `repr` of dict entries, comma separated. -/
def entriesRepr : List (String × Value) → String
  | [] => ""
  | (k, v) :: rest =>
    match rest with
    | [] => "'" ++ k ++ "': " ++ valueRepr v
    | _ => "'" ++ k ++ "': " ++ valueRepr v ++ ", " ++ entriesRepr rest

end

/-- Python `str(val)` as used by the replacement callback of `render`. -/
def valueToStr : Value → String
  | .str s => s
  | .null => "None"
  | .dict es => "\x7b" ++ entriesRepr es ++ "\x7d"

/-- Loop of `_get_by_path`: walk the dotted-path segments through nested
dicts; on a missing key or a non-dict value return `""`; a final `None`
becomes `""`. -/
def getByPathAux : Value → List String → Value
  | cur, [] => match cur with
    | .null => .str ""
    | v => v
  | cur, part :: rest =>
    match cur with
    | .dict es => match es.lookup part with
      | some v => getByPathAux v rest
      | none => .str ""
    | _ => .str ""

/-- Model of `_get_by_path` (src/app/template_engine.py). -/
def getByPath (data : List (String × Value)) (path : String) : Value :=
  getByPathAux (.dict data) ((splitCh '.' path.data).map (fun p => (⟨p⟩ : String)))

/-- Whether a region between `\x7b\x7b` and `\x7d\x7d` can be matched by
the pattern `\x7b\x7b\s*(.*?)\s*\x7d\x7d`: once the surrounding whitespace
is stripped, no newline may remain (regex `.` does not match `\n`). -/
def validInner (inner : List Char) : Bool := !((stripChars inner).contains '\n')

/-- Scan for the earliest closing `\x7d\x7d` whose accumulated inner text
is matchable; returns the inner text and the remainder.  This is the
end-position the lazy group of `_PATTERN` selects. -/
def scanInner (acc : List Char) : List Char → Option (List Char × List Char)
  | [] => none
  | [_] => none
  | c1 :: c2 :: rest =>
    if c1 = '\x7d' ∧ c2 = '\x7d' ∧ validInner acc then some (acc, rest)
    else scanInner (acc ++ [c1]) (c2 :: rest)
  termination_by cs => cs.length

/-- Remainder returned by a successful scan is shorter than the input. -/
theorem scanInner_length : ∀ (acc cs i r : List Char),
    scanInner acc cs = some (i, r) → r.length + 2 ≤ cs.length
  | acc, [], i, r => by simp [scanInner]
  | acc, [c], i, r => by simp [scanInner]
  | acc, c1 :: c2 :: rest, i, r => by
    rw [scanInner]
    split
    · intro h
      obtain ⟨rfl, rfl⟩ : acc = i ∧ rest = r := by
        simpa using h
      simp
    · intro h
      have ih := scanInner_length (acc ++ [c1]) (c2 :: rest) i r h
      simp only [List.length_cons] at ih ⊢
      omega
  termination_by acc cs => cs.length

/-- Left-to-right scan of `_PATTERN.sub(repl, template)`: at each
position, if a placeholder matches here, substitute the resolved value and
continue after it; otherwise copy one character. -/
def renderCh (ctx : List (String × Value)) : List Char → List Char
  | [] => []
  | [c] => [c]
  | c1 :: c2 :: rest =>
    if c1 = '\x7b' ∧ c2 = '\x7b' then
      match h : scanInner [] rest with
      | some (inner, rest2) =>
        (valueToStr (getByPath ctx (⟨stripChars inner⟩ : String))).data ++ renderCh ctx rest2
      | none => c1 :: renderCh ctx (c2 :: rest)
    else c1 :: renderCh ctx (c2 :: rest)
  termination_by cs => cs.length
  decreasing_by
    · have := scanInner_length [] rest inner rest2 h
      simp only [List.length_cons]
      omega
    · simp
    · simp

/-- Model of `render` (src/app/template_engine.py). -/
def render (template : String) (context : List (String × Value)) : String :=
  ⟨renderCh context template.data⟩

/-- Whether `_PATTERN` matches anywhere in the text: the template contains
a complete placeholder. -/
def hasMatchCh : List Char → Bool
  | [] => false
  | [_] => false
  | c1 :: c2 :: rest =>
    if c1 = '\x7b' ∧ c2 = '\x7b' then
      match scanInner [] rest with
      | some _ => true
      | none => hasMatchCh (c2 :: rest)
    else hasMatchCh (c2 :: rest)
  termination_by cs => cs.length

/-- A template contains a placeholder iff the regex matches somewhere. -/
def hasPlaceholder (template : String) : Bool := hasMatchCh template.data

/-! ## src/app/main.py -/

/-- A calendar date as produced by `datetime.date`. -/
structure PDate where
  y : Nat
  m : Nat
  d : Nat
deriving DecidableEq

/-- Strict order on dates, as Python compares `date` objects. -/
def pdLT (a b : PDate) : Prop :=
  a.y < b.y ∨ (a.y = b.y ∧ (a.m < b.m ∨ (a.m = b.m ∧ a.d < b.d)))

instance (a b : PDate) : Decidable (pdLT a b) := by
  unfold pdLT; infer_instance

/-- Non-strict order on dates. -/
def pdLE (a b : PDate) : Prop := pdLT a b ∨ a = b

instance (a b : PDate) : Decidable (pdLE a b) := by
  unfold pdLE; infer_instance

/-- Gregorian leap-year rule used by `datetime`. -/
def isLeap (y : Nat) : Bool := y % 4 = 0 && (y % 100 ≠ 0 || y % 400 = 0)

/-- Days in a month, as `datetime` validates them. -/
def daysInMonth (y m : Nat) : Nat :=
  if m = 2 then (if isLeap y then 29 else 28)
  else if m = 4 ∨ m = 6 ∨ m = 9 ∨ m = 11 then 30
  else 31

/-- Ranges `datetime.date` accepts (MINYEAR 1 to MAXYEAR 9999). -/
def validDate (y m d : Nat) : Bool :=
  1 ≤ y && y ≤ 9999 && 1 ≤ m && m ≤ 12 && 1 ≤ d && d ≤ daysInMonth y m

/-- Model of Python `datetime.fromisoformat(s).date()` (standard library,
not part of src/): the extended date format, exactly `YYYY-MM-DD` with
zero-padded fields.  The library function accepts more.  For every other
dash-separated input it accepts — a date followed by a separator and a
time part — the date is carried by the first ten characters, so the
caller's `strptime` fallback on `s[:10]` yields the identical result and
`parse_date` below is unaffected (the subsumption is machine-checked in
`fromiso_subsumed_by_fallback`).  The one genuine gap is version
dependence of the program itself: the repository pins no Python version,
and CPython 3.11+ additionally parses basic-format (`YYYYMMDD`) and
ISO-week (`YYYY-Www[-D]`) strings that CPython up to 3.10 — and this
model — treat as parse failures, i.e. absent bounds. -/
def fromisoformatDate (s : String) : Option PDate :=
  match s.data with
  | [y1, y2, y3, y4, s1, m1, m2, s2, d1, d2] =>
    if [y1, y2, y3, y4, m1, m2, d1, d2].all Char.isDigit ∧ s1 = '-' ∧ s2 = '-' then
      let y := digitsVal [y1, y2, y3, y4]
      let m := digitsVal [m1, m2]
      let d := digitsVal [d1, d2]
      if validDate y m d then some ⟨y, m, d⟩ else none
    else none
  | _ => none

/-- Take up to `k` leading decimal digits. -/
def takeDigits : Nat → List Char → List Char × List Char
  | _, [] => ([], [])
  | 0, cs => ([], cs)
  | k + 1, c :: cs =>
    if c.isDigit then
      let (ds, rest) := takeDigits k cs
      (c :: ds, rest)
    else ([], c :: cs)

/-- Day field of CPython `strptime`: the `%d` pattern is
`3[01]|[12]\d|0[1-9]|[1-9]| [1-9]` — one or two digits, or a space padded
single digit; like `_strptime`, syntactic two-digit overshoots and zero
are rejected by the range check in `validDate`, exactly where
`datetime(...)` raises. -/
def dayField : List Char → Option (Nat × List Char)
  | [] => none
  | c :: rest =>
    if c = ' ' then
      match rest with
      | c2 :: rest2 => if c2.isDigit then some (digitsVal [c2], rest2) else none
      | [] => none
    else
      match takeDigits 2 (c :: rest) with
      | (d1 :: ds, rest2) => some (digitsVal (d1 :: ds), rest2)
      | ([], _) => none

/-- Model of `datetime.strptime(s, "%Y-%m-%d").date()` following CPython
`_strptime`: `%Y` is exactly four digits (`\d\d\d\d`), `%m` is one or two
digits (`1[0-2]|0[1-9]|[1-9]`), `%d` is `dayField` above, the dashes are
literal, the whole string must be consumed, and the resulting numbers are
validated as a date.  Greedy two-digit reading of `%m`/`%d` agrees with
the regex alternation because a rejected two-digit value leaves its second
digit where the regex then requires a dash or the end. -/
def strptimeYMD (s : String) : Option PDate :=
  match s.data with
  | y1 :: y2 :: y3 :: y4 :: '-' :: rest1 =>
    if [y1, y2, y3, y4].all Char.isDigit then
      match takeDigits 2 rest1 with
      | (m1 :: ms, '-' :: rest2) =>
        match dayField rest2 with
        | some (d, []) =>
          let y := digitsVal [y1, y2, y3, y4]
          let m := digitsVal (m1 :: ms)
          if validDate y m d then some ⟨y, m, d⟩ else none
        | _ => none
      | _ => none
    else none
  | _ => none

/-- Python code-point slicing `s[:n]`. -/
def pyTake (s : String) (n : Nat) : String := ⟨s.data.take n⟩

/-- Model of `parse_date` inside `_active_promo` (src/app/main.py): try a
full ISO parse, then the first ten characters as `YYYY-MM-DD`; on total
failure the bound is absent. -/
def parse_date (s : String) : Option PDate :=
  match fromisoformatDate s with
  | some d => some d
  | none => strptimeYMD (pyTake s 10)

/-- The `ok` flag of the `_active_promo` row loop, with `today` made an
explicit parameter in place of `datetime.utcnow().date()`. -/
def promoOk (today : PDate) (r : Row) : Bool :=
  let ok := true
  let ok := match parse_date (getCell r "วันที่เริ่ม" "") with
    | some start => if pdLT today start then false else ok
    | none => ok
  let ok := match parse_date (getCell r "วันหมดอายุ" "") with
    | some stop => if pdLT stop today then false else ok
    | none => ok
  ok

/-- The derived one-line summary `_active_promo` attaches to the winning
row. -/
def promoOneLine (r : Row) : String :=
  let title := pyStrip (getCell r "ชื่อโปรโมชัน" "")
  let short := pyStrip (getCell r "คำอธิบายสั้น" "")
  if title ≠ "" ∨ short ≠ "" then title ++ " — " ++ short else ""

/-- Augmentation `promo["one_line"] = ...` modelled for lookup purposes. -/
def augmentPromo (r : Row) : Row := ("one_line", promoOneLine r) :: r

/-- Model of `_active_promo` (src/app/main.py); an empty table and an
exhausted loop both yield `none`. -/
def active_promo (today : PDate) : List Row → Option Row
  | [] => none
  | r :: rest =>
    if promoOk today r then some (augmentPromo r) else active_promo today rest

/-- SKU clause of `_pick_product`: non-empty lower-cased SKU cell occurs
in the lower-cased text. -/
def skuMatch (t : String) (p : Row) : Bool :=
  let sku := pyLower (getCell p "รหัสสินค้า (SKU)" "")
  !sku.isEmpty && pySubstr sku t

/-- Name clause of `_pick_product`: the name cell is non-empty and one of
its whitespace-delimited lower-cased tokens occurs in the text. -/
def nameMatch (t : String) (p : Row) : Bool :=
  let name := pyLower (getCell p "ชื่อสินค้า" "")
  !name.isEmpty && (pyWords name).any (fun tok => pySubstr tok t)

/-- Model of `_pick_product` (src/app/main.py). -/
def pick_product (text : String) (products : List Row) : Row :=
  match products with
  | [] => ([] : Row)
  | p0 :: _ =>
    let t := pyLower text
    match products.find? (skuMatch t) with
    | some p => p
    | none =>
      match products.find? (nameMatch t) with
      | some p => p
      | none => p0

/-! ## Generic helper lemmas -/

instance {ε α : Type} [DecidableEq ε] [DecidableEq α] : DecidableEq (Except ε α)
  | .error e, .error f =>
    if h : e = f then .isTrue (by rw [h]) else .isFalse (fun c => h (Except.error.inj c))
  | .error _, .ok _ => .isFalse (fun c => Except.noConfusion c)
  | .ok _, .error _ => .isFalse (fun c => Except.noConfusion c)
  | .ok a, .ok b =>
    if h : a = b then .isTrue (by rw [h]) else .isFalse (fun c => h (Except.ok.inj c))

theorem isPrefixCh_iff : ∀ (p l : List Char), isPrefixCh p l = true ↔ p <+: l
  | [], l => by simp [isPrefixCh]
  | a :: as, [] => by simp [isPrefixCh]
  | a :: as, b :: bs => by
    simp [isPrefixCh, List.cons_prefix_cons, isPrefixCh_iff as bs]

theorem isSubCh_iff : ∀ (n l : List Char), isSubCh n l = true ↔ n <:+: l
  | n, [] => by
    simp [isSubCh, List.isEmpty_iff]
  | n, c :: t => by
    simp [isSubCh, List.infix_cons_iff, isPrefixCh_iff, isSubCh_iff n t]

theorem isPrefixCh_append_self (p r : List Char) : isPrefixCh p (p ++ r) = true :=
  (isPrefixCh_iff p (p ++ r)).mpr (List.prefix_append p r)

theorem mem_stripChars {c : Char} {l : List Char} (h : c ∈ stripChars l) : c ∈ l := by
  unfold stripChars at h
  rw [List.mem_reverse] at h
  have h1 := (List.dropWhile_sublist pyWS).mem h
  rw [List.mem_reverse] at h1
  exact (List.dropWhile_sublist pyWS).mem h1

theorem dropWhile_append_cases (p : Char → Bool) (l₁ l₂ : List Char) :
    List.dropWhile p (l₁ ++ l₂) =
      if (List.dropWhile p l₁).isEmpty then List.dropWhile p l₂
      else List.dropWhile p l₁ ++ l₂ := by
  induction l₁ with
  | nil => simp
  | cons a l₁ ih =>
    by_cases hp : p a
    · simpa [List.dropWhile_cons, hp] using ih
    · simp [List.dropWhile_cons, hp]

theorem takeWhile_append_stop (p : Char → Bool) :
    ∀ (l₁ l₂ : List Char) (sep : Char), (∀ c ∈ l₁, p c = true) → p sep = false →
      List.takeWhile p (l₁ ++ sep :: l₂) = l₁
  | [], l₂, sep => fun _ h2 => by
    rw [List.nil_append, List.takeWhile_cons, h2]
    rfl
  | a :: t, l₂, sep => fun h1 h2 => by
    rw [List.cons_append, List.takeWhile_cons, h1 a (List.mem_cons_self a t), if_pos rfl,
      takeWhile_append_stop p t l₂ sep (fun c hc => h1 c (List.mem_cons_of_mem a hc)) h2]

theorem takeWhile_eq_self_of_all (p : Char → Bool) :
    ∀ l : List Char, (∀ c ∈ l, p c = true) → List.takeWhile p l = l
  | [] => fun _ => rfl
  | a :: t => fun h => by
    rw [List.takeWhile_cons, h a (List.mem_cons_self a t), if_pos rfl,
      takeWhile_eq_self_of_all p t (fun c hc => h c (List.mem_cons_of_mem a hc))]

theorem splitChAux_headD (sep : Char) :
    ∀ (l acc : List Char),
      (splitChAux sep l acc).headD [] = acc.reverse ++ l.takeWhile (fun c => c ≠ sep)
  | [], acc => by simp [splitChAux]
  | c :: cs, acc => by
    by_cases hc : c = sep
    · simp [splitChAux, hc, List.takeWhile_cons]
    · rw [splitChAux, if_neg hc, splitChAux_headD sep cs (c :: acc)]
      simp [List.takeWhile_cons, hc]

theorem splitCh_headD (sep : Char) (l : List Char) :
    (splitCh sep l).headD [] = l.takeWhile (fun c => c ≠ sep) := by
  simpa using splitChAux_headD sep l []

theorem takeWhile_append_all (p : Char → Bool) :
    ∀ l₁ l₂ : List Char, (∀ c ∈ l₁, p c = true) →
      List.takeWhile p (l₁ ++ l₂) = l₁ ++ List.takeWhile p l₂
  | [], l₂ => fun _ => rfl
  | a :: t, l₂ => fun h => by
    rw [List.cons_append, List.takeWhile_cons, h a (List.mem_cons_self a t), if_pos rfl,
      takeWhile_append_all p t l₂ (fun c hc => h c (List.mem_cons_of_mem a hc)),
      List.cons_append]

theorem dropWhile_eq_self_of_strip {l : List Char} (h : stripChars l = l) :
    l.dropWhile pyWS = l := by
  have hsub : List.Sublist (l.dropWhile pyWS) l := List.dropWhile_sublist pyWS
  refine hsub.eq_of_length (Nat.le_antisymm (List.Sublist.length_le hsub) ?_)
  calc l.length = (stripChars l).length := by rw [h]
    _ ≤ ((l.dropWhile pyWS).reverse.dropWhile pyWS).length := by
        simp [stripChars]
    _ ≤ (l.dropWhile pyWS).length := by
        simpa using List.Sublist.length_le (List.dropWhile_sublist (l := (l.dropWhile pyWS).reverse) pyWS)

theorem rdropWhile_eq_self_of_strip {l : List Char} (h : stripChars l = l) :
    l.reverse.dropWhile pyWS = l.reverse := by
  have h1 : l.dropWhile pyWS = l := dropWhile_eq_self_of_strip h
  have h2 : stripChars l = (l.reverse.dropWhile pyWS).reverse := by
    simp [stripChars, h1]
  have := h2.symm.trans h
  calc l.reverse.dropWhile pyWS
      = ((l.reverse.dropWhile pyWS).reverse).reverse := by simp
    _ = l.reverse := by rw [this]

theorem stripChars_append_keep {p : List Char} (t : List Char)
    (hp : stripChars p = p) (hne : p ≠ []) :
    stripChars (p ++ t) = p ++ (t.reverse.dropWhile pyWS).reverse := by
  have h1 : p.dropWhile pyWS = p := dropWhile_eq_self_of_strip hp
  have h2 : p.reverse.dropWhile pyWS = p.reverse := rdropWhile_eq_self_of_strip hp
  have hleft : (p ++ t).dropWhile pyWS = p ++ t := by
    rw [dropWhile_append_cases, h1]
    have : p.isEmpty = false := by
      cases p with
      | nil => exact absurd rfl hne
      | cons a l => rfl
    simp [this]
  unfold stripChars
  rw [hleft, List.reverse_append]
  rw [dropWhile_append_cases]
  by_cases hrt : (t.reverse.dropWhile pyWS).isEmpty
  · have hrt' : t.reverse.dropWhile pyWS = [] := by
      simpa [List.isEmpty_iff] using hrt
    simp [hrt, h2, hrt']
  · simp only [hrt, if_false, Bool.false_eq_true]
    have hrt' : t.reverse.dropWhile pyWS ≠ [] := by
      simpa [List.isEmpty_iff] using hrt
    simp

theorem stripChars_append_pipe {a : List Char} (b : List Char)
    (ha : stripChars a = a) :
    stripChars (a ++ '|' :: b) = a ++ '|' :: (b.reverse.dropWhile pyWS).reverse := by
  have h1 : a.dropWhile pyWS = a := dropWhile_eq_self_of_strip ha
  have hpipe : pyWS '|' = false := by decide
  have hleft : (a ++ '|' :: b).dropWhile pyWS = a ++ '|' :: b := by
    rw [dropWhile_append_cases, h1]
    by_cases hae : a.isEmpty
    · have : a = [] := by simpa [List.isEmpty_iff] using hae
      simp [this, List.dropWhile_cons, hpipe]
    · simp [hae]
  unfold stripChars
  rw [hleft]
  have hrev : (a ++ '|' :: b).reverse = b.reverse ++ '|' :: a.reverse := by
    simp
  rw [hrev, dropWhile_append_cases]
  by_cases hrb : (b.reverse.dropWhile pyWS).isEmpty
  · have hrb' : b.reverse.dropWhile pyWS = [] := by
      simpa [List.isEmpty_iff] using hrb
    simp [hrb, List.dropWhile_cons, hpipe, hrb']
  · simp only [hrb, if_false, Bool.false_eq_true]
    simp

/-! ## Lemmas about the intent matcher -/

theorem collectRows_error_iff (text : String) :
    ∀ l : List (String × Row),
      collectRows text l = .error () ↔ ∃ wr ∈ l, rowPrio wr.2 = .error ()
  | [] => by simp [collectRows]
  | (w, r) :: rest => by
    rw [collectRows]
    cases hp : rowPrio r with
    | error e =>
      cases e
      simp only [true_iff]
      exact ⟨(w, r), by simp, hp⟩
    | ok p =>
      cases hrest : collectRows text rest with
      | error e =>
        cases e
        have := (collectRows_error_iff text rest).mp hrest
        simp only [true_iff]
        obtain ⟨wr, hmem, herr⟩ := this
        exact ⟨wr, by simp [hmem], herr⟩
      | ok cs =>
        constructor
        · intro hcontra
          by_cases hm : rowMatches text r <;> simp [hm] at hcontra
        · rintro ⟨wr, hmem, herr⟩
          rcases List.mem_cons.mp hmem with rfl | hmem2
          · rw [hp] at herr; exact absurd herr (by simp)
          · have : collectRows text rest = .error () :=
              (collectRows_error_iff text rest).mpr ⟨wr, hmem2, herr⟩
            rw [hrest] at this; exact absurd this (by simp)

theorem collectRows_ok_nil (text : String) :
    ∀ l : List (String × Row), collectRows text l = .ok [] →
      ∀ wr ∈ l, rowMatches text wr.2 = false
  | [] => by simp
  | (w, r) :: rest => by
    rw [collectRows]
    cases hp : rowPrio r with
    | error e => simp
    | ok p =>
      cases hrest : collectRows text rest with
      | error e => simp
      | ok cs =>
        intro h
        by_cases hm : rowMatches text r
        · simp [hm] at h
        · simp only [hm, if_false, Bool.false_eq_true] at h
          have hcs : cs = [] := by simpa using h
          intro wr hmem
          rcases List.mem_cons.mp hmem with rfl | hmem2
          · simpa using hm
          · exact collectRows_ok_nil text rest (hcs ▸ hrest) wr hmem2

theorem parse_always_of_startswith {rule : String}
    (h : pyStartswith "always" rule = true) :
    parse_detection_rule rule = .always := by
  obtain ⟨t, ht'⟩ := (isPrefixCh_iff _ _).mp h
  have ht : rule.data = "always".data ++ t := ht'.symm
  have hstripa : stripChars ("always".data) = "always".data := by decide
  have hne : ("always".data : List Char) ≠ [] := by decide
  have hstrip : stripChars rule.data
      = "always".data ++ (t.reverse.dropWhile pyWS).reverse := by
    rw [ht]; exact stripChars_append_keep t hstripa hne
  unfold parse_detection_rule
  have hcore : (splitCh '|' (pyStrip rule).data).headD []
      = "always".data ++ List.takeWhile (fun c => c ≠ '|') ((t.reverse.dropWhile pyWS).reverse) := by
    show (splitCh '|' (stripChars rule.data)).headD [] = _
    rw [hstrip, splitCh_headD, takeWhile_append_all]
    decide
  show parseCore ⟨(splitCh '|' (pyStrip rule).data).headD []⟩ = .always
  rw [hcore]
  show parseCore ⟨'a' :: 'l' :: 'w' :: 'a' :: 'y' :: 's' :: _⟩ = .always
  unfold parseCore
  rw [if_neg (by simp [pyStartswith, isPrefixCh]), if_pos]
  exact isPrefixCh_append_self _ _

theorem fallbackScan_default :
    ∀ l : List (String × Row),
      (∀ wr ∈ l, pyStartswith "always" (getCell wr.2 "กฎการตรวจจับ" "") = false) →
      fallbackScan l = ("fallback", ([] : Row))
  | [] => fun _ => rfl
  | (w, r) :: rest => by
    intro h
    rw [fallbackScan]
    rw [if_neg (by simpa using h (w, r) (by simp))]
    exact fallbackScan_default rest (fun wr hmem => h wr (by simp [hmem]))

theorem firstMinBy_min :
    ∀ (cs : List (Int × String × Row)) (start : Int × String × Row),
      ∀ x ∈ start :: cs, (firstMinBy start cs).1 ≤ x.1
  | [], start => by simp [firstMinBy]
  | c :: cs, start => by
    intro x hx
    rw [firstMinBy]
    have ih := firstMinBy_min cs (if c.1 < start.1 then c else start)
    rcases List.mem_cons.mp hx with rfl | hx2
    · by_cases hc : c.1 < x.1
      · have := ih (if c.1 < x.1 then c else x) (by simp)
        calc (firstMinBy (if c.1 < x.1 then c else x) cs).1
            ≤ (if c.1 < x.1 then c else x).1 := this
          _ ≤ x.1 := by rw [if_pos hc]; exact le_of_lt hc
      · have := ih (if c.1 < x.1 then c else x) (by simp)
        calc (firstMinBy (if c.1 < x.1 then c else x) cs).1
            ≤ (if c.1 < x.1 then c else x).1 := this
          _ ≤ x.1 := by rw [if_neg hc]
    · rcases List.mem_cons.mp hx2 with rfl | hx3
      · by_cases hc : x.1 < start.1
        · have := ih (if x.1 < start.1 then x else start) (by simp)
          calc (firstMinBy (if x.1 < start.1 then x else start) cs).1
              ≤ (if x.1 < start.1 then x else start).1 := this
            _ ≤ x.1 := by rw [if_pos hc]
        · have := ih (if x.1 < start.1 then x else start) (by simp)
          calc (firstMinBy (if x.1 < start.1 then x else start) cs).1
              ≤ (if x.1 < start.1 then x else start).1 := this
            _ ≤ x.1 := by rw [if_neg hc]; omega
      · exact ih x (by simp [hx3])

theorem firstMinBy_decomp :
    ∀ (cs : List (Int × String × Row)) (start : Int × String × Row),
      ∃ l1 l2, start :: cs = l1 ++ (firstMinBy start cs) :: l2 ∧
        ∀ x ∈ l1, (firstMinBy start cs).1 < x.1
  | [], start => ⟨[], [], by simp [firstMinBy], by simp⟩
  | c :: cs, start => by
    rw [firstMinBy]
    obtain ⟨l1, l2, heq, hstrict⟩ := firstMinBy_decomp cs (if c.1 < start.1 then c else start)
    by_cases hc : c.1 < start.1
    · rw [if_pos hc] at heq hstrict ⊢
      cases l1 with
      | nil =>
        simp only [List.nil_append, List.cons.injEq] at heq
        refine ⟨[start], l2, ?_, ?_⟩
        · simp [← heq.1, ← heq.2]
        · intro x hx
          rcases List.mem_singleton.mp hx with rfl
          have hr : (firstMinBy c cs).1 ≤ c.1 := firstMinBy_min cs c c (by simp)
          omega
      | cons hd l1' =>
        simp only [List.cons_append, List.cons.injEq] at heq
        obtain ⟨rfl, heq2⟩ := heq
        refine ⟨start :: c :: l1', l2, ?_, ?_⟩
        · conv_lhs => rw [heq2]
          simp
        intro x hx
        rcases List.mem_cons.mp hx with rfl | hx2
        · have h1 : (firstMinBy c cs).1 < c.1 := hstrict c (by simp)
          omega
        · rcases List.mem_cons.mp hx2 with rfl | hx3
          · exact hstrict x (by simp)
          · exact hstrict x (by simp [hx3])
    · rw [if_neg hc] at heq hstrict ⊢
      cases l1 with
      | nil =>
        simp only [List.nil_append, List.cons.injEq] at heq
        refine ⟨[], c :: cs, ?_, by simp⟩
        simp [← heq.1]
      | cons hd l1' =>
        simp only [List.cons_append, List.cons.injEq] at heq
        obtain ⟨rfl, heq2⟩ := heq
        refine ⟨start :: c :: l1', l2, ?_, ?_⟩
        · conv_lhs => rw [heq2]
          simp
        intro x hx
        rcases List.mem_cons.mp hx with rfl | hx2
        · exact hstrict x (by simp)
        · rcases List.mem_cons.mp hx2 with rfl | hx3
          · have h1 : (firstMinBy start cs).1 < start.1 := hstrict start (by simp)
            omega
          · exact hstrict x (by simp [hx3])

/-! ## Lemmas about the template engine -/

theorem renderCh_braces (ctx : List (String × Value)) (rest : List Char) :
    renderCh ctx ('\x7b' :: '\x7b' :: rest) =
      match scanInner [] rest with
      | some (inner, rest2) =>
        (valueToStr (getByPath ctx (⟨stripChars inner⟩ : String))).data ++ renderCh ctx rest2
      | none => '\x7b' :: renderCh ctx ('\x7b' :: rest) := by
  rw [renderCh]
  rw [if_pos (show ('\x7b' : Char) = '\x7b' ∧ ('\x7b' : Char) = '\x7b' from And.intro rfl rfl)]
  cases h : scanInner [] rest with
  | some p => cases p; rfl
  | none => rfl

theorem renderCh_cons_ne (ctx : List (String × Value)) (c1 c2 : Char) (rest : List Char)
    (h : ¬(c1 = '\x7b' ∧ c2 = '\x7b')) :
    renderCh ctx (c1 :: c2 :: rest) = c1 :: renderCh ctx (c2 :: rest) := by
  rw [renderCh, if_neg h]

theorem hasMatchCh_braces (rest : List Char) :
    hasMatchCh ('\x7b' :: '\x7b' :: rest) =
      match scanInner [] rest with
      | some _ => true
      | none => hasMatchCh ('\x7b' :: rest) := by
  rw [hasMatchCh]
  rw [if_pos (show ('\x7b' : Char) = '\x7b' ∧ ('\x7b' : Char) = '\x7b' from And.intro rfl rfl)]

theorem hasMatchCh_cons_ne (c1 c2 : Char) (rest : List Char)
    (h : ¬(c1 = '\x7b' ∧ c2 = '\x7b')) :
    hasMatchCh (c1 :: c2 :: rest) = hasMatchCh (c2 :: rest) := by
  rw [hasMatchCh, if_neg h]

theorem renderCh_nil (ctx : List (String × Value)) : renderCh ctx [] = [] := by
  simp [renderCh]

theorem renderCh_single (ctx : List (String × Value)) (c : Char) :
    renderCh ctx [c] = [c] := by
  simp [renderCh]

theorem scanInner_cons2 (acc : List Char) (c1 c2 : Char) (rest : List Char) :
    scanInner acc (c1 :: c2 :: rest) =
      if c1 = '\x7d' ∧ c2 = '\x7d' ∧ validInner acc then some (acc, rest)
      else scanInner (acc ++ [c1]) (c2 :: rest) := by
  rw [scanInner]

theorem renderCh_of_no_match (ctx : List (String × Value)) :
    ∀ l : List Char, hasMatchCh l = false → renderCh ctx l = l
  | [] => fun _ => renderCh_nil ctx
  | [c] => fun _ => renderCh_single ctx c
  | c1 :: c2 :: rest => by
    intro h
    by_cases hb : c1 = '\x7b' ∧ c2 = '\x7b'
    · obtain ⟨rfl, rfl⟩ := hb
      rw [hasMatchCh_braces] at h
      rw [renderCh_braces]
      cases hscan : scanInner [] rest with
      | some p => rw [hscan] at h; simp at h
      | none =>
        rw [hscan] at h
        simp only []
        rw [renderCh_of_no_match ctx ('\x7b' :: rest) h]
    · rw [hasMatchCh_cons_ne c1 c2 rest hb] at h
      rw [renderCh_cons_ne ctx c1 c2 rest hb, renderCh_of_no_match ctx (c2 :: rest) h]
  termination_by l => l.length

theorem renderCh_copy (ctx : List (String × Value)) :
    ∀ (A rest : List Char), (∀ c ∈ A, c ≠ '\x7b') →
      renderCh ctx (A ++ rest) = A ++ renderCh ctx rest
  | [], rest => fun _ => rfl
  | a :: A, rest => by
    intro hA
    have ha : a ≠ '\x7b' := hA a (by simp)
    have hrec : renderCh ctx (A ++ rest) = A ++ renderCh ctx rest :=
      renderCh_copy ctx A rest (fun c hc => hA c (by simp [hc]))
    cases hAr : A ++ rest with
    | nil =>
      obtain ⟨rfl, rfl⟩ := List.append_eq_nil.mp hAr
      simp only [List.append_nil, List.nil_append]
      rw [renderCh_single, renderCh_nil]
      simp
    | cons x xs =>
      have h1 : renderCh ctx (a :: x :: xs) = a :: renderCh ctx (x :: xs) :=
        renderCh_cons_ne ctx a x xs (fun hc => ha hc.1)
      calc renderCh ctx (a :: A ++ rest) = renderCh ctx (a :: x :: xs) := by rw [List.cons_append, hAr]
        _ = a :: renderCh ctx (x :: xs) := h1
        _ = a :: renderCh ctx (A ++ rest) := by rw [hAr]
        _ = a :: (A ++ renderCh ctx rest) := by rw [hrec]
        _ = (a :: A) ++ renderCh ctx rest := rfl

theorem scanInner_finds :
    ∀ (P : List Char) (acc B : List Char), (∀ c ∈ P, c ≠ '\x7d') →
      validInner (acc ++ P) = true →
      scanInner acc (P ++ '\x7d' :: '\x7d' :: B) = some (acc ++ P, B)
  | [], acc, B => by
    intro _ hv
    rw [List.nil_append, scanInner_cons2]
    rw [if_pos ⟨rfl, rfl, by simpa using hv⟩]
    simp
  | p :: P, acc, B => by
    intro hP hv
    have hp : p ≠ '\x7d' := hP p (by simp)
    cases P with
    | nil =>
      rw [List.cons_append, List.nil_append, scanInner_cons2]
      rw [if_neg (fun hc => hp hc.1)]
      have := scanInner_finds [] (acc ++ [p]) B (by simp)
        (by simpa using hv)
      rw [List.nil_append] at this
      rw [this]
      simp
    | cons q P' =>
      rw [List.cons_append, List.cons_append, scanInner_cons2]
      rw [if_neg (fun hc => hp hc.1)]
      have := scanInner_finds (q :: P') (acc ++ [p]) B
        (fun c hc => hP c (by simp [hc])) (by simpa using hv)
      rw [List.cons_append] at this
      rw [this]
      simp

/-- Membership in the whitespace-stripped list implies membership. -/
theorem validInner_of_no_newline {P : List Char} (h : ∀ c ∈ P, c ≠ '\n') :
    validInner P = true := by
  unfold validInner
  have : ¬ ('\n' ∈ stripChars P) := fun hc => h '\n' (mem_stripChars hc) rfl
  simpa [List.contains, List.elem_iff] using this

/-! ## Lemmas about promotion and product selection -/

theorem not_pdLT_iff (a b : PDate) : ¬ pdLT a b ↔ pdLE b a := by
  cases a with
  | mk ay am ad =>
    cases b with
    | mk yb mb db =>
      simp only [pdLT, pdLE, PDate.mk.injEq]
      constructor
      · intro h
        by_cases h1 : yb < ay
        · exact Or.inl (Or.inl h1)
        · by_cases h2 : ay = yb
          · by_cases h3 : mb < am
            · exact Or.inl (Or.inr ⟨h2.symm, Or.inl h3⟩)
            · by_cases h4 : am = mb
              · by_cases h5 : db < ad
                · exact Or.inl (Or.inr ⟨h2.symm, Or.inr ⟨h4.symm, h5⟩⟩)
                · refine Or.inr ⟨h2.symm, h4.symm, ?_⟩
                  omega
              · exfalso; exact h (Or.inr ⟨h2, Or.inl (by omega)⟩)
          · exfalso; exact h (Or.inl (by omega))
      · intro h hcon
        rcases h with h | h
        · rcases h with h | ⟨rfl, h⟩
          · rcases hcon with hc | ⟨rfl, hc⟩
            · omega
            · omega
          · rcases h with h | ⟨rfl, h⟩
            · rcases hcon with hc | ⟨heq, hc⟩
              · omega
              · rcases hc with hc | ⟨rfl, hc⟩
                · omega
                · omega
            · rcases hcon with hc | ⟨heq, hc⟩
              · omega
              · rcases hc with hc | ⟨heq2, hc⟩
                · omega
                · omega
        · obtain ⟨rfl, rfl, rfl⟩ := h
          rcases hcon with hc | ⟨heq, hc⟩
          · omega
          · rcases hc with hc | ⟨heq2, hc⟩
            · omega
            · omega

/-- The claim-side reading of an active promotion row: start absent or not
after today, end absent or not before today. -/
def specActive (today : PDate) (r : Row) : Prop :=
  (match parse_date (getCell r "วันที่เริ่ม" "") with
   | none => True
   | some start => pdLE start today) ∧
  (match parse_date (getCell r "วันหมดอายุ" "") with
   | none => True
   | some stop => pdLE today stop)

instance (today : PDate) (r : Row) : Decidable (specActive today r) := by
  unfold specActive
  cases parse_date (getCell r "วันที่เริ่ม" "") <;>
    cases parse_date (getCell r "วันหมดอายุ" "") <;> simp <;> infer_instance

theorem promoOk_iff_specActive (today : PDate) (r : Row) :
    promoOk today r = true ↔ specActive today r := by
  unfold promoOk specActive
  cases hs : parse_date (getCell r "วันที่เริ่ม" "") with
  | none =>
    cases he : parse_date (getCell r "วันหมดอายุ" "") with
    | none => simp
    | some stop =>
      by_cases hlt : pdLT stop today
      · simp only [if_pos hlt]
        simp only [true_and]
        constructor
        · intro h; exact absurd h (by simp)
        · intro h
          exact absurd ((not_pdLT_iff stop today).mpr h) (fun hc => hc hlt)
      · simp only [if_neg hlt]
        simp [(not_pdLT_iff stop today).mp hlt]
  | some start =>
    cases he : parse_date (getCell r "วันหมดอายุ" "") with
    | none =>
      by_cases hlt : pdLT today start
      · simp only [if_pos hlt]
        simp only [and_true]
        constructor
        · intro h; exact absurd h (by simp)
        · intro h
          exact absurd ((not_pdLT_iff today start).mpr h) (fun hc => hc hlt)
      · simp only [if_neg hlt]
        simp [(not_pdLT_iff today start).mp hlt]
    | some stop =>
      by_cases hlt2 : pdLT stop today
      · simp only [if_pos hlt2]
        constructor
        · intro h; exact absurd h (by simp)
        · intro h
          exact absurd ((not_pdLT_iff stop today).mpr h.2) (fun hc => hc hlt2)
      · simp only [if_neg hlt2]
        by_cases hlt : pdLT today start
        · simp only [if_pos hlt]
          constructor
          · intro h; exact absurd h (by simp)
          · intro h
            exact absurd ((not_pdLT_iff today start).mpr h.1) (fun hc => hc hlt)
        · simp only [if_neg hlt]
          simp [(not_pdLT_iff today start).mp hlt, (not_pdLT_iff stop today).mp hlt2]

theorem active_promo_none_iff (today : PDate) :
    ∀ rows : List Row,
      active_promo today rows = none ↔ ∀ r ∈ rows, ¬ specActive today r
  | [] => by simp [active_promo]
  | r :: rest => by
    rw [active_promo]
    by_cases hok : promoOk today r
    · rw [if_pos hok]
      constructor
      · intro h; exact absurd h (by simp)
      · intro h
        exact ((h r (by simp)) ((promoOk_iff_specActive today r).mp hok)).elim
    · rw [if_neg hok]
      rw [active_promo_none_iff today rest]
      constructor
      · intro h x hx
        rcases List.mem_cons.mp hx with rfl | hx2
        · intro hs
          exact hok ((promoOk_iff_specActive today x).mpr hs)
        · exact h x hx2
      · intro h x hx
        exact h x (by simp [hx])

theorem active_promo_some (today : PDate) :
    ∀ (rows : List Row) (p : Row), active_promo today rows = some p →
      ∃ l1 r l2, rows = l1 ++ r :: l2 ∧ p = augmentPromo r ∧
        specActive today r ∧ ∀ x ∈ l1, ¬ specActive today x
  | [], p => by simp [active_promo]
  | r :: rest, p => by
    rw [active_promo]
    by_cases hok : promoOk today r
    · rw [if_pos hok]
      intro h
      refine ⟨[], r, rest, by simp, (Option.some.inj h).symm,
        (promoOk_iff_specActive today r).mp hok, by simp⟩
    · rw [if_neg hok]
      intro h
      obtain ⟨l1, q, l2, heq, hp, hq, hl1⟩ := active_promo_some today rest p h
      refine ⟨r :: l1, q, l2, by simp [heq], hp, hq, ?_⟩
      intro x hx
      rcases List.mem_cons.mp hx with rfl | hx2
      · intro hs; exact hok ((promoOk_iff_specActive today x).mpr hs)
      · exact hl1 x hx2

theorem find?_decomp {α : Type} (P : α → Bool) :
    ∀ (l1 : List α) (p : α) (l2 : List α), P p = true → (∀ x ∈ l1, P x = false) →
      (l1 ++ p :: l2).find? P = some p
  | [], p, l2 => by
    intro hp _
    simpa using List.find?_cons_of_pos _ hp
  | a :: l1, p, l2 => by
    intro hp h
    have ha : ¬ P a := by simpa using h a (by simp)
    rw [List.cons_append, List.find?_cons_of_neg _ ha]
    exact find?_decomp P l1 p l2 hp (fun x hx => h x (by simp [hx]))

theorem nameMatch_eq_any (t : String) (p : Row) :
    nameMatch t p
      = (pyWords (pyLower (getCell p "ชื่อสินค้า" ""))).any
          (fun tok => pySubstr tok t) := by
  unfold nameMatch
  by_cases he : (pyLower (getCell p "ชื่อสินค้า" "")).isEmpty
  · have : pyLower (getCell p "ชื่อสินค้า" "") = "" := (String.isEmpty_iff _).mp he
    rw [this] at he ⊢
    simp only [he]
    rfl
  · simp [he]

/-- Strings with equal character data are equal. -/
theorem stringDataExt {a b : String} (h : a.data = b.data) : a = b :=
  congrArg String.mk h

/-! ## Claim theorems -/

/-- Claim C1, counterexample: the claim says a priority value that fails
to parse as an integer is replaced by the default 999 and `choose_intent`
never raises; but on a table whose row has priority text `"abc"` the code
evaluates `int("abc")` and raises (modelled as `Except.error`), instead of
returning a result with default priority. -/
theorem choose_intent_raises_on_bad_priority :
    choose_intent "hi" [[("ลำดับความสำคัญ", "abc"), ("กฎการตรวจจับ", "always")]] []
      = .error () := rfl

/-- Claim C1 as amended: the priority is read from the priority column
with default string `"999"` for a missing column; an empty value defaults
to 999; a value that parses as an integer is used as is; a non-empty
unparseable value raises, and `choose_intent` raises exactly when some row
of its tables has such a priority value. -/
theorem priority_default_and_error :
    (∀ r : Row, r.lookup "ลำดับความสำคัญ" = none → rowPrio r = .ok 999) ∧
    (∀ r : Row, r.lookup "ลำดับความสำคัญ" = some "" → rowPrio r = .ok 999) ∧
    (∀ (r : Row) (s : String) (n : Int),
      r.lookup "ลำดับความสำคัญ" = some s → pyInt s = some n → rowPrio r = .ok n) ∧
    (∀ (r : Row) (s : String),
      r.lookup "ลำดับความสำคัญ" = some s → s ≠ "" → pyInt s = none →
        rowPrio r = .error ()) ∧
    (∀ (text : String) (b a : List Row),
      choose_intent text b a = .error () ↔
        ∃ wr ∈ taggedRows b a, rowPrio wr.2 = .error ()) := by
  refine ⟨?_, ?_, ?_, ?_, ?_⟩
  · intro r h
    unfold rowPrio getCell
    rw [h]
    rfl
  · intro r h
    unfold rowPrio getCell
    rw [h]
    rfl
  · intro r s n h hn
    unfold rowPrio getCell
    rw [h]
    have hs : s ≠ "" := by
      intro hc
      rw [hc] at hn
      exact absurd hn (by simp [pyInt, stripChars])
    simp only [hs, if_neg, if_false]
    rw [hn]
  · intro r s h hs hn
    unfold rowPrio getCell
    rw [h, if_neg hs, hn]
  · intro text b a
    unfold choose_intent
    cases hc : collectRows text (taggedRows b a) with
    | error e =>
      cases e
      simpa using (collectRows_error_iff text (taggedRows b a)).mp hc
    | ok cs =>
      cases cs with
      | nil =>
        constructor
        · intro hcon; exact absurd hcon (by simp)
        · intro hcon
          have := (collectRows_error_iff text (taggedRows b a)).mpr hcon
          rw [hc] at this
          exact absurd this (by simp)
      | cons c cs' =>
        constructor
        · intro hcon; exact absurd hcon (by simp)
        · intro hcon
          have := (collectRows_error_iff text (taggedRows b a)).mpr hcon
          rw [hc] at this
          exact absurd this (by simp)

/-- Witness for the amended Claim C1 at concrete rows. -/
theorem priority_default_and_error_witness :
    rowPrio [("ลำดับความสำคัญ", "abc")] = .error () ∧
    rowPrio [("อื่น", "x")] = .ok 999 ∧
    rowPrio [("ลำดับความสำคัญ", "7")] = .ok 7 :=
  ⟨priority_default_and_error.2.2.2.1 [("ลำดับความสำคัญ", "abc")] "abc" rfl
      (by decide) rfl,
    priority_default_and_error.1 [("อื่น", "x")] rfl,
    priority_default_and_error.2.2.1 [("ลำดับความสำคัญ", "7")] "7" 7 rfl rfl⟩

/-- Claim C2: when the candidate collection succeeds and is non-empty,
`choose_intent` returns the tag and row of a candidate that has minimal
priority among all candidates and is the earliest such candidate in the
collection order (tables in the given order, rows in row order) — the
head of a stable sort by priority. -/
theorem choose_intent_picks_first_minimum (text : String) (b a : List Row)
    (cs : List (Int × String × Row))
    (h : collectRows text (taggedRows b a) = .ok cs) (hne : cs ≠ []) :
    ∃ w l1 l2, choose_intent text b a = .ok w.2 ∧ cs = l1 ++ w :: l2 ∧
      (∀ x ∈ cs, w.1 ≤ x.1) ∧ (∀ x ∈ l1, w.1 < x.1) := by
  cases cs with
  | nil => exact absurd rfl hne
  | cons c cs' =>
    obtain ⟨l1, l2, heq, hstrict⟩ := firstMinBy_decomp cs' c
    refine ⟨firstMinBy c cs', l1, l2, ?_, heq, ?_, hstrict⟩
    · unfold choose_intent
      rw [h]
    · exact fun x hx => firstMinBy_min cs' c x hx

/-- Witness for Claim C2: two tables with priorities [5, 1] and [3]; the
matcher picks the priority-1 row of the first table. -/
theorem choose_intent_picks_first_minimum_witness :
    ∃ w l1 l2,
      choose_intent "hi"
          [[("ลำดับความสำคัญ", "5"), ("กฎการตรวจจับ", "always"), ("id", "r1")],
            [("ลำดับความสำคัญ", "1"), ("กฎการตรวจจับ", "always"), ("id", "r2")]]
          [[("ลำดับความสำคัญ", "3"), ("กฎการตรวจจับ", "always"), ("id", "r3")]]
        = .ok w.2 ∧
      [((5 : Int), "before",
          ([("ลำดับความสำคัญ", "5"), ("กฎการตรวจจับ", "always"), ("id", "r1")] : Row)),
        ((1 : Int), "before",
          ([("ลำดับความสำคัญ", "1"), ("กฎการตรวจจับ", "always"), ("id", "r2")] : Row)),
        ((3 : Int), "after",
          ([("ลำดับความสำคัญ", "3"), ("กฎการตรวจจับ", "always"), ("id", "r3")] : Row))]
        = l1 ++ w :: l2 ∧
      (∀ x ∈ [((5 : Int), "before",
          ([("ลำดับความสำคัญ", "5"), ("กฎการตรวจจับ", "always"), ("id", "r1")] : Row)),
        ((1 : Int), "before",
          ([("ลำดับความสำคัญ", "1"), ("กฎการตรวจจับ", "always"), ("id", "r2")] : Row)),
        ((3 : Int), "after",
          ([("ลำดับความสำคัญ", "3"), ("กฎการตรวจจับ", "always"), ("id", "r3")] : Row))],
        w.1 ≤ x.1) ∧
      (∀ x ∈ l1, w.1 < x.1) :=
  choose_intent_picks_first_minimum "hi" _ _ _ rfl (by simp)

/-- Claim-side notion used by C3: the first scanned row whose rule parses
as an `Always` rule. -/
def specFirstAlways (l : List (String × Row)) : Option (String × Row) :=
  l.find? (fun wr =>
    decide (parse_detection_rule (getCell wr.2 "กฎการตรวจจับ" "") = .always))

/-- A row whose rule parses as `Always` matches every text. -/
theorem rowMatches_of_parse_always {text : String} {r : Row}
    (h : parse_detection_rule (getCell r "กฎการตรวจจับ" "") = .always) :
    rowMatches text r = true := by
  unfold rowMatches
  rw [h]

/-- Claim C3: when zero candidates matched, `choose_intent` returns the
result of the fallback scan; that scan returns the first row whose rule is
an `Always` rule when one exists, and the reserved `("fallback", empty)`
marker otherwise.  (When zero candidates matched, no scanned row can be an
`Always` rule, so the first case is vacuous and the marker is returned.) -/
theorem choose_intent_fallback_scan (text : String) (b a : List Row)
    (hc : collectRows text (taggedRows b a) = .ok []) :
    choose_intent text b a = .ok (fallbackScan (taggedRows b a)) ∧
    (∀ wr, specFirstAlways (taggedRows b a) = some wr →
      fallbackScan (taggedRows b a) = wr) ∧
    (specFirstAlways (taggedRows b a) = none →
      fallbackScan (taggedRows b a) = ("fallback", ([] : Row))) := by
  have hnm := collectRows_ok_nil text (taggedRows b a) hc
  refine ⟨?_, ?_, ?_⟩
  · unfold choose_intent
    rw [hc]
  · intro wr hfind
    have hp : parse_detection_rule (getCell wr.2 "กฎการตรวจจับ" "") = .always := by
      simpa using List.find?_some hfind
    have hmem := List.mem_of_find?_eq_some hfind
    have := hnm wr hmem
    rw [rowMatches_of_parse_always hp] at this
    exact absurd this (by simp)
  · intro _
    apply fallbackScan_default
    intro wr hmem
    by_contra hcon
    have hsw : pyStartswith "always" (getCell wr.2 "กฎการตรวจจับ" "") = true := by
      simpa using hcon
    have := hnm wr hmem
    rw [rowMatches_of_parse_always (parse_always_of_startswith hsw)] at this
    exact absurd this (by simp)

/-- Witness for Claim C3: a keyword table with no match for the text and
no `Always` row; the fallback marker with an empty row is returned. -/
theorem choose_intent_fallback_scan_witness :
    choose_intent "hello" [[("กฎการตรวจจับ", "keyword_any:ราคา")]] []
        = .ok (fallbackScan (taggedRows [[("กฎการตรวจจับ", "keyword_any:ราคา")]] [])) ∧
    (∀ wr, specFirstAlways (taggedRows [[("กฎการตรวจจับ", "keyword_any:ราคา")]] []) = some wr →
      fallbackScan (taggedRows [[("กฎการตรวจจับ", "keyword_any:ราคา")]] []) = wr) ∧
    (specFirstAlways (taggedRows [[("กฎการตรวจจับ", "keyword_any:ราคา")]] []) = none →
      fallbackScan (taggedRows [[("กฎการตรวจจับ", "keyword_any:ราคา")]] [])
        = ("fallback", ([] : Row))) :=
  choose_intent_fallback_scan "hello" [[("กฎการตรวจจับ", "keyword_any:ราคา")]] [] rfl

/-- Claim C4, counterexample: the claim says a token is lower-cased before
the substring test; the code uses the token verbatim, so for text `" A"`
and token list `["A"]` the matcher returns `false` although the
lower-cased token `"a"` does occur in the lower-cased text `" a"`. -/
theorem match_keyword_any_counterexample :
    match_keyword_any " A" ["A"] = false ∧
    ("a" : String).data <:+: (pyLower " A").data := by
  constructor
  · rfl
  · decide

/-- Claim C4 as amended: `match_keyword_any` returns true iff some token
of the list, used verbatim, is a substring of the text after stripping
then lower-casing (`_norm`); the empty token list never matches. -/
theorem match_keyword_any_spec (text : String) (tokens : List String) :
    (match_keyword_any text tokens = true ↔
      ∃ tok ∈ tokens, tok.data <:+: (pyNorm text).data) ∧
    match_keyword_any text [] = false := by
  constructor
  · unfold match_keyword_any pySubstr
    rw [List.any_eq_true]
    constructor
    · rintro ⟨tok, hmem, hsub⟩
      exact ⟨tok, hmem, (isSubCh_iff _ _).mp hsub⟩
    · rintro ⟨tok, hmem, hsub⟩
      exact ⟨tok, hmem, (isSubCh_iff _ _).mpr hsub⟩
  · rfl

/-- Claim C5: `parse_detection_rule` on the four specification examples;
a whitespace-only rule is `Unknown`; the portion after the first pipe is
ignored; and a rule starting with `always` parses as `Always`.  The
function is total, so no input raises. -/
theorem parse_detection_rule_spec :
    parse_detection_rule "keyword_any:ราคา, ขนาด" = .keyword_any ["ราคา", "ขนาด"] ∧
    parse_detection_rule "always" = .always ∧
    parse_detection_rule "" = .unknown ∧
    parse_detection_rule "keyword_any:a|llm" = .keyword_any ["a"] ∧
    (∀ s : String, (∀ c ∈ s.data, pyWS c = true) → parse_detection_rule s = .unknown) ∧
    (∀ a b : String, (∀ c ∈ a.data, c ≠ '|') → pyStrip a = a →
      parse_detection_rule (a ++ "|" ++ b) = parse_detection_rule a) ∧
    (∀ rule : String, pyStartswith "always" rule = true →
      parse_detection_rule rule = .always) := by
  refine ⟨rfl, rfl, rfl, rfl, ?_, ?_, fun rule h => parse_always_of_startswith h⟩
  · intro s hws
    have h1 : s.data.dropWhile pyWS = [] := by
      rw [List.dropWhile_eq_nil_iff]
      intro x hx
      exact hws x hx
    have h2 : stripChars s.data = [] := by
      unfold stripChars
      rw [h1]
      rfl
    unfold parse_detection_rule
    show parseCore ⟨(splitCh '|' (stripChars s.data)).headD []⟩ = .unknown
    rw [h2]
    rfl
  · intro a b hpipe hstrip
    have hstrip' : stripChars a.data = a.data := congrArg String.data hstrip
    have hdata : (a ++ "|" ++ b).data = a.data ++ '|' :: b.data := by
      simp [String.data_append]
    have h2 : stripChars (a ++ "|" ++ b).data
        = a.data ++ '|' :: (b.data.reverse.dropWhile pyWS).reverse := by
      rw [hdata]
      exact stripChars_append_pipe b.data hstrip'
    unfold parse_detection_rule
    show parseCore ⟨(splitCh '|' (stripChars (a ++ "|" ++ b).data)).headD []⟩
        = parseCore ⟨(splitCh '|' (stripChars a.data)).headD []⟩
    rw [h2, hstrip', splitCh_headD, splitCh_headD]
    rw [takeWhile_append_stop _ a.data _ '|' (fun c hc => by simpa using hpipe c hc) (by simp)]
    rw [takeWhile_eq_self_of_all _ a.data (fun c hc => by simpa using hpipe c hc)]

/-- Witness for Claim C5 at a concrete pipe-suffixed rule. -/
theorem parse_detection_rule_spec_witness :
    parse_detection_rule ("always" ++ "|" ++ "llm") = parse_detection_rule "always" ∧
    parse_detection_rule " " = .unknown :=
  ⟨parse_detection_rule_spec.2.2.2.2.2.1 "always" "llm" (by decide) (by decide),
    parse_detection_rule_spec.2.2.2.2.1 " " (by decide)⟩

theorem hasMatchCh_nil : hasMatchCh [] = false := by
  simp [hasMatchCh]

theorem hasMatchCh_single (c : Char) : hasMatchCh [c] = false := by
  simp [hasMatchCh]

/-- Claim C6: `render` substitutes every `\x7b\x7b path \x7d\x7d`
placeholder (inner whitespace trimmed) by the stringified value reached by
walking the dot-separated path through nested dicts — missing keys,
non-dict intermediate values and a final null all degrade to the empty
string inside `getByPath` — while text containing no complete placeholder,
unmatched single braces included, passes through unchanged.  The
hypotheses carve out one placeholder with a brace-free prefix and a
newline-free, brace-free path, which is the shape the regex
`\x7b\x7b\s*(.*?)\s*\x7d\x7d` matches; the rest of the template is handled
by the recursive `render B` on the right-hand side. -/
theorem render_substitutes_placeholders (A P B : String)
    (ctx : List (String × Value))
    (hA : ∀ c ∈ A.data, c ≠ '\x7b') (hP1 : ∀ c ∈ P.data, c ≠ '\x7d')
    (hP2 : ∀ c ∈ P.data, c ≠ '\n') :
    render (A ++ "\x7b\x7b" ++ P ++ "\x7d\x7d" ++ B) ctx
      = A ++ valueToStr (getByPath ctx (pyStrip P)) ++ render B ctx ∧
    (∀ t : String, hasPlaceholder t = false → render t ctx = t) := by
  constructor
  · unfold render
    apply stringDataExt
    have hdata : (A ++ "\x7b\x7b" ++ P ++ "\x7d\x7d" ++ B).data
        = A.data ++ '\x7b' :: '\x7b' :: (P.data ++ '\x7d' :: '\x7d' :: B.data) := by
      simp [String.data_append]
    rw [hdata]
    rw [renderCh_copy ctx A.data _ hA]
    rw [renderCh_braces]
    have hscan : scanInner [] (P.data ++ '\x7d' :: '\x7d' :: B.data)
        = some (P.data, B.data) := by
      have := scanInner_finds P.data [] B.data hP1
        (by simpa using validInner_of_no_newline hP2)
      simpa using this
    rw [hscan]
    show A.data ++ ((valueToStr (getByPath ctx ⟨stripChars P.data⟩)).data
        ++ renderCh ctx B.data)
      = (A ++ valueToStr (getByPath ctx (pyStrip P)) ++ render B ctx).data
    simp [String.data_append, pyStrip, render]
  · intro t h
    unfold render
    rw [renderCh_of_no_match ctx t.data h]

/-- Witness for Claim C6: one placeholder resolving through a nested dict,
and a brace-free template passing through unchanged. -/
theorem render_substitutes_placeholders_witness :
    render ("Hi " ++ "\x7b\x7b" ++ " a.b " ++ "\x7d\x7d" ++ "!")
        [("a", .dict [("b", .str "x")])]
      = "Hi " ++ valueToStr (getByPath [("a", .dict [("b", .str "x")])] (pyStrip " a.b "))
        ++ render "!" [("a", .dict [("b", .str "x")])] ∧
    render "hi" [("a", .dict [("b", .str "x")])] = "hi" := by
  constructor
  · exact (render_substitutes_placeholders "Hi " " a.b " "!"
      [("a", .dict [("b", .str "x")])] (by decide) (by decide) (by decide)).1
  · apply (render_substitutes_placeholders "" "" ""
      [("a", .dict [("b", .str "x")])] (by decide) (by decide) (by decide)).2
    show hasMatchCh "hi".data = false
    show hasMatchCh ['h', 'i'] = false
    rw [hasMatchCh_cons_ne 'h' 'i' [] (by decide)]
    exact hasMatchCh_single 'i'

/-- Claim C9: `render` is pure and deterministic — a template with no
complete placeholder renders to itself for every context, and rendering
the same template twice with the same context gives the same output
(the model is a function, so determinism is definitional). -/
theorem render_pure (t : String) (ctx : List (String × Value)) :
    (hasPlaceholder t = false → render t ctx = t) ∧ render t ctx = render t ctx := by
  constructor
  · intro h
    unfold render
    rw [renderCh_of_no_match ctx t.data h]
  · rfl

/-- Witness for Claim C9 on a brace-free template. -/
theorem render_pure_witness :
    render "hello \x7bworld" [("k", .str "v")] = "hello \x7bworld" ∧
    render "hello \x7bworld" [("k", .str "v")] = render "hello \x7bworld" [("k", .str "v")] := by
  refine ⟨(render_pure "hello \x7bworld" [("k", .str "v")]).1 ?_,
    (render_pure "hello \x7bworld" [("k", .str "v")]).2⟩
  show hasMatchCh "hello \x7bworld".data = false
  show hasMatchCh
    ['h', 'e', 'l', 'l', 'o', ' ', '\x7b', 'w', 'o', 'r', 'l', 'd'] = false
  rw [hasMatchCh_cons_ne 'h' 'e' _ (by decide),
    hasMatchCh_cons_ne 'e' 'l' _ (by decide),
    hasMatchCh_cons_ne 'l' 'l' _ (by decide),
    hasMatchCh_cons_ne 'l' 'o' _ (by decide),
    hasMatchCh_cons_ne 'o' ' ' _ (by decide),
    hasMatchCh_cons_ne ' ' '\x7b' _ (by decide),
    hasMatchCh_cons_ne '\x7b' 'w' _ (by decide),
    hasMatchCh_cons_ne 'w' 'o' _ (by decide),
    hasMatchCh_cons_ne 'o' 'r' _ (by decide),
    hasMatchCh_cons_ne 'r' 'l' _ (by decide),
    hasMatchCh_cons_ne 'l' 'd' _ (by decide)]
  exact hasMatchCh_single 'd'

/-- Helper: `_pick_product` result when the SKU scan succeeds. -/
theorem pick_product_of_sku {text : String} {products : List Row} {p : Row}
    (hne : products ≠ [])
    (h : products.find? (skuMatch (pyLower text)) = some p) :
    pick_product text products = p := by
  cases products with
  | nil => exact absurd rfl hne
  | cons p0 rest =>
    simp only [pick_product]
    rw [h]

/-- Helper: `_pick_product` result when only the name scan succeeds. -/
theorem pick_product_of_name {text : String} {products : List Row} {p : Row}
    (hne : products ≠ [])
    (h1 : products.find? (skuMatch (pyLower text)) = none)
    (h2 : products.find? (nameMatch (pyLower text)) = some p) :
    pick_product text products = p := by
  cases products with
  | nil => exact absurd rfl hne
  | cons p0 rest =>
    simp only [pick_product]
    rw [h1, h2]

/-- Helper: `_pick_product` result when both scans fail. -/
theorem pick_product_of_none {text : String} {products : List Row}
    (h1 : products.find? (skuMatch (pyLower text)) = none)
    (h2 : products.find? (nameMatch (pyLower text)) = none) :
    ∀ p0 rest, products = p0 :: rest → pick_product text products = p0 := by
  intro p0 rest heq
  subst heq
  simp only [pick_product]
  rw [h1, h2]

/-- Claim C7: `_pick_product` returns, in priority order, the first
product whose non-empty lower-cased SKU occurs in the lower-cased text;
else the first product one of whose whitespace-delimited lower-cased name
tokens occurs in the text; else the first product; and the empty record on
an empty list.  The last conjunct states the name clause exactly as the
claim reads it: the emptiness guard on the name cell is redundant because
an empty name has no tokens. -/
theorem pick_product_policy (text : String) (products : List Row) :
    pick_product text ([] : List Row) = ([] : Row) ∧
    (∀ l1 p l2, products = l1 ++ p :: l2 →
      skuMatch (pyLower text) p = true →
      (∀ x ∈ l1, skuMatch (pyLower text) x = false) →
      pick_product text products = p) ∧
    ((∀ x ∈ products, skuMatch (pyLower text) x = false) →
      ∀ l1 p l2, products = l1 ++ p :: l2 →
        nameMatch (pyLower text) p = true →
        (∀ x ∈ l1, nameMatch (pyLower text) x = false) →
        pick_product text products = p) ∧
    ((∀ x ∈ products, skuMatch (pyLower text) x = false ∧
        nameMatch (pyLower text) x = false) →
      ∀ p0 rest, products = p0 :: rest → pick_product text products = p0) ∧
    (∀ p : Row, nameMatch (pyLower text) p
      = (pyWords (pyLower (getCell p "ชื่อสินค้า" ""))).any
          (fun tok => pySubstr tok (pyLower text))) := by
  refine ⟨rfl, ?_, ?_, ?_, fun p => nameMatch_eq_any (pyLower text) p⟩
  · intro l1 p l2 heq hp hl1
    have hfind : products.find? (skuMatch (pyLower text)) = some p := by
      rw [heq]
      exact find?_decomp _ l1 p l2 hp hl1
    apply pick_product_of_sku (by rw [heq]; simp) hfind
  · intro hall l1 p l2 heq hp hl1
    have h1 : products.find? (skuMatch (pyLower text)) = none :=
      List.find?_eq_none.mpr (fun x hx => by simp [hall x hx])
    have h2 : products.find? (nameMatch (pyLower text)) = some p := by
      rw [heq]
      exact find?_decomp _ l1 p l2 hp hl1
    apply pick_product_of_name (by rw [heq]; simp) h1 h2
  · intro hall p0 rest heq
    have h1 : products.find? (skuMatch (pyLower text)) = none :=
      List.find?_eq_none.mpr (fun x hx => by simp [(hall x hx).1])
    have h2 : products.find? (nameMatch (pyLower text)) = none :=
      List.find?_eq_none.mpr (fun x hx => by simp [(hall x hx).2])
    exact pick_product_of_none h1 h2 p0 rest heq

/-- Witness for Claim C7: the specification example — SKU `A1` matches the
text case-insensitively, so the first product wins. -/
theorem pick_product_policy_witness :
    pick_product "สนใจ a1 ค่ะ"
        [[("รหัสสินค้า (SKU)", "A1"), ("ชื่อสินค้า", "ครีม")],
          [("รหัสสินค้า (SKU)", "B2"), ("ชื่อสินค้า", "สบู่")]]
      = [("รหัสสินค้า (SKU)", "A1"), ("ชื่อสินค้า", "ครีม")] :=
  (pick_product_policy "สนใจ a1 ค่ะ"
      [[("รหัสสินค้า (SKU)", "A1"), ("ชื่อสินค้า", "ครีม")],
        [("รหัสสินค้า (SKU)", "B2"), ("ชื่อสินค้า", "สบู่")]]).2.1
    [] [("รหัสสินค้า (SKU)", "A1"), ("ชื่อสินค้า", "ครีม")]
    [[("รหัสสินค้า (SKU)", "B2"), ("ชื่อสินค้า", "สบู่")]]
    rfl (by decide) (by simp)

/-- Whenever the modelled ISO parse succeeds, the `strptime` fallback on
the first ten characters yields the very same date, so inside the
dash-separated family the composed `parse_date` does not depend on how
much of `fromisoformat` the model reproduces. -/
theorem fromiso_subsumed_by_fallback (s : String) (d : PDate)
    (h : fromisoformatDate s = some d) : strptimeYMD (pyTake s 10) = some d := by
  unfold fromisoformatDate at h
  split at h
  · rename_i y1 y2 y3 y4 s1 m1 m2 s2 d1 d2 heq
    split_ifs at h with h1
    obtain ⟨hdig, rfl, rfl⟩ := h1
    simp only [List.all_cons, List.all_nil, Bool.and_eq_true, Bool.and_true] at hdig
    obtain ⟨hy1, hy2, hy3, hy4, hm1, hm2, hd1, hd2⟩ := hdig
    have hs10 : pyTake s 10 = ⟨[y1, y2, y3, y4, '-', m1, m2, '-', d1, d2]⟩ := by
      apply stringDataExt
      show s.data.take 10 = _
      rw [heq]
      rfl
    have hd1ne : ¬ d1 = ' ' := fun hc => by
      rw [hc] at hd1
      exact absurd hd1 (by decide)
    have htk : takeDigits 2 [m1, m2, '-', d1, d2] = ([m1, m2], '-' :: [d1, d2]) := by
      simp [takeDigits, hm1, hm2]
    have hday : dayField [d1, d2] = some (digitsVal [d1, d2], []) := by
      have htk2 : takeDigits 2 [d1, d2] = ([d1, d2], []) := by
        simp [takeDigits, hd1, hd2]
      simp only [dayField, if_neg hd1ne, htk2]
    rw [hs10]
    simp only [strptimeYMD]
    simp only [hy1, hy2, hy3, hy4, List.all_cons, List.all_nil, Bool.and_self, if_true, htk, hday]
    exact h
  · exact absurd h (by simp)

/-- Claim C8: `_active_promo` returns the first row in table order whose
start date is absent or not after today and whose end date is absent or
not before today (the result row carries the `one_line` augmentation, see
C10); when no row qualifies there is no active promotion.  Date cells go
through `parse_date`: the full ISO parse first, then the first ten
characters as `YYYY-MM-DD`, and total failure means an absent bound. -/
theorem active_promo_policy (today : PDate) (rows : List Row) :
    (active_promo today rows = none ↔ ∀ r ∈ rows, ¬ specActive today r) ∧
    (∀ p, active_promo today rows = some p →
      ∃ l1 r l2, rows = l1 ++ r :: l2 ∧ p = augmentPromo r ∧
        specActive today r ∧ ∀ x ∈ l1, ¬ specActive today x) ∧
    (∀ (s : String) (d : PDate), fromisoformatDate s = some d → parse_date s = some d) ∧
    (∀ s : String, fromisoformatDate s = none →
      parse_date s = strptimeYMD (pyTake s 10)) ∧
    (∀ (s : String) (d : PDate), fromisoformatDate s = some d →
      strptimeYMD (pyTake s 10) = some d) := by
  refine ⟨active_promo_none_iff today rows, active_promo_some today rows, ?_, ?_,
    fun s d h => fromiso_subsumed_by_fallback s d h⟩
  · intro s d h
    unfold parse_date
    rw [h]
  · intro s h
    unfold parse_date
    rw [h]

/-- Witness for Claim C8: the specification example with today 2024-06-15;
the June promotion is active, the July one is not scanned past. -/
theorem active_promo_policy_witness :
    ∃ l1 r l2,
      ([[("วันที่เริ่ม", "2024-06-01"), ("วันหมดอายุ", "2024-06-30")],
          [("วันที่เริ่ม", "2024-07-01")]] : List Row) = l1 ++ r :: l2 ∧
      augmentPromo [("วันที่เริ่ม", "2024-06-01"), ("วันหมดอายุ", "2024-06-30")]
        = augmentPromo r ∧
      specActive ⟨2024, 6, 15⟩ r ∧ ∀ x ∈ l1, ¬ specActive ⟨2024, 6, 15⟩ x := by
  have h := (active_promo_policy ⟨2024, 6, 15⟩
      [[("วันที่เริ่ม", "2024-06-01"), ("วันหมดอายุ", "2024-06-30")],
        [("วันที่เริ่ม", "2024-07-01")]]).2.1
    (augmentPromo [("วันที่เริ่ม", "2024-06-01"), ("วันหมดอายุ", "2024-06-30")]) rfl
  obtain ⟨l1, r, l2, heq, hp, hact, hl1⟩ := h
  exact ⟨l1, r, l2, heq, by rw [hp], hact, hl1⟩

/-- Claim C10: a selected promotion row is augmented with the derived
`one_line` key, holding the trimmed title and trimmed short description
joined by `" — "` when at least one is non-empty and the empty string when
both are empty; a no-promotion result is `none` and carries no row at
all (in particular no `one_line` key). -/
theorem active_promo_one_line (today : PDate) (rows : List Row) :
    (∀ p, active_promo today rows = some p →
      ∃ r, p = augmentPromo r ∧
        p.lookup "one_line" = some (
          if pyStrip (getCell r "ชื่อโปรโมชัน" "") ≠ "" ∨
              pyStrip (getCell r "คำอธิบายสั้น" "") ≠ ""
          then pyStrip (getCell r "ชื่อโปรโมชัน" "") ++ " — "
              ++ pyStrip (getCell r "คำอธิบายสั้น" "")
          else "")) ∧
    ((∀ r ∈ rows, promoOk today r = false) → active_promo today rows = none) := by
  constructor
  · intro p h
    obtain ⟨l1, r, l2, _, hp, _, _⟩ := active_promo_some today rows p h
    refine ⟨r, hp, ?_⟩
    rw [hp]
    show ((("one_line", promoOneLine r) :: r).lookup "one_line") = _
    simp [List.lookup, promoOneLine]
  · intro h
    rw [active_promo_none_iff today rows]
    intro r hr
    intro hs
    have := (promoOk_iff_specActive today r).mpr hs
    rw [h r hr] at this
    exact absurd this (by simp)

/-- Witness for Claim C10: an active row with title `" Promo "` and short
description `"desc"` carries `one_line`, and a table whose only row lies
in the future yields no promotion. -/
theorem active_promo_one_line_witness :
    (∃ r, augmentPromo
        [("วันที่เริ่ม", "2024-06-01"), ("ชื่อโปรโมชัน", " Promo "),
          ("คำอธิบายสั้น", "desc")] = augmentPromo r ∧
      (augmentPromo
        [("วันที่เริ่ม", "2024-06-01"), ("ชื่อโปรโมชัน", " Promo "),
          ("คำอธิบายสั้น", "desc")]).lookup "one_line" = some (
        if pyStrip (getCell r "ชื่อโปรโมชัน" "") ≠ "" ∨
            pyStrip (getCell r "คำอธิบายสั้น" "") ≠ ""
        then pyStrip (getCell r "ชื่อโปรโมชัน" "") ++ " — "
            ++ pyStrip (getCell r "คำอธิบายสั้น" "")
        else "")) ∧
    active_promo ⟨2024, 6, 15⟩ [[("วันที่เริ่ม", "2024-07-01")]] = none :=
  ⟨(active_promo_one_line ⟨2024, 6, 15⟩
      [[("วันที่เริ่ม", "2024-06-01"), ("ชื่อโปรโมชัน", " Promo "),
        ("คำอธิบายสั้น", "desc")]]).1
    (augmentPromo
      [("วันที่เริ่ม", "2024-06-01"), ("ชื่อโปรโมชัน", " Promo "),
        ("คำอธิบายสั้น", "desc")]) rfl,
   (active_promo_one_line ⟨2024, 6, 15⟩ [[("วันที่เริ่ม", "2024-07-01")]]).2
    (by decide)⟩

end TwstBot
